import Mathlib

/-!
Verification of the RubyRed repository (two Python scripts) against its
natural-language specification.

Shallow embedding conventions:
* A text file is a `List String` of its lines, without the trailing newline
  characters (Python's `for line in f` yields lines with `"\n"`, which the
  scripts immediately `strip()`; every use below strips first, so dropping
  the newline up front is faithful).
* Python dictionaries are association lists in insertion order with
  first-match lookup; keys stay unique because assignment updates in place
  and only missing keys are appended, exactly as CPython does. The shared
  combinators `alookup` (`d.get(k)`) and `updOrAppend` (`d[k] = ...`,
  including the `defaultdict` get-or-insert) model this once for all five
  dictionaries the scripts use.
* Python string primitives (`strip`, `split`, `join`, `startswith`, `str`)
  are modelled character-by-character below.
-/

namespace RubyRed

/-! ## Python dictionary primitives -/

/-- Python `d.get(k)`: first-match lookup in an association list. -/
def alookup {α : Type} : List (String × α) → String → Option α
  | [], _ => none
  | (k, v) :: rest, x => if k = x then some v else alookup rest x

/-- Python `d[k] = f(d.get(k, i))`: update the entry in place when the key
is present, else append `(k, f i)` at the end. With `f := fun _ => v` this
is plain assignment `d[k] = v`; with `i` the default value it is the
`defaultdict` get-or-insert update. -/
def updOrAppend {α : Type} (m : List (String × α)) (k : String) (f : α → α)
    (i : α) : List (String × α) :=
  if m.any (fun p => p.1 = k) then
    m.map (fun p => if p.1 = k then (p.1, f p.2) else p)
  else m ++ [(k, f i)]

/-! ## Python string primitives -/

/-- The six ASCII characters Python's `str.strip()` removes. -/
def isPySpace (c : Char) : Bool :=
  c = ' ' || c = '\t' || c = '\n' || c = '\r' || c = '\x0b' || c = '\x0c'

/-- Python `s.strip()`: remove leading and trailing whitespace. -/
def pyStrip (s : String) : String :=
  ⟨((s.data.dropWhile isPySpace).reverse.dropWhile isPySpace).reverse⟩

/-- Python `s.split(sep)` for a one-character separator, on the character
list: `"".split(c) = [""]`, adjacent separators yield empty fields. -/
def pySplitList (c : Char) : List Char → List (List Char)
  | [] => [[]]
  | x :: xs =>
    if x = c then [] :: pySplitList c xs
    else
      match pySplitList c xs with
      | [] => [[x]]
      | h :: t => (x :: h) :: t

/-- Python `s.split(sep)` for a one-character separator. -/
def pySplit1 (c : Char) (s : String) : List String :=
  (pySplitList c s.data).map String.mk

/-- Python `sep.join(xs)`. -/
def pyJoin (sep : String) : List String → String
  | [] => ""
  | [x] => x
  | x :: y :: xs => x ++ sep ++ pyJoin sep (y :: xs)

/-- Python `s.startswith(">")`. -/
def startsWithGT (s : String) : Bool :=
  match s.data with
  | c :: _ => c = '>'
  | [] => false

/-- Python `s[1:]`. -/
def pyDrop1 (s : String) : String := ⟨s.data.tail⟩

/-! ## create_feature_table.py -/

/-- `current_seq_id.split("_")[0]`: the sample ID is the identifier's prefix
before the first underscore (the whole identifier when there is none). -/
def sampleIdOf (ident : String) : String :=
  (pySplit1 '_' ident).headD ""

/-- Inner dict of `sample_counts`: feature identifier to occurrence count. -/
abbrev Inner := List (String × Nat)

/-- `sample_counts`: sample ID to inner count dict. -/
abbrev SampleCounts := List (String × Inner)

/-- Dict lookup with default 0, i.e. `inner.get(f, 0)`. -/
def getCountI (inner : Inner) (f : String) : Nat :=
  (alookup inner f).getD 0

/-- Outer dict lookup: the inner dict stored under sample `s`, `[]` if the
sample is absent (the `defaultdict` default). -/
def getInner (m : SampleCounts) (s : String) : Inner :=
  (alookup m s).getD []

/-- `sample_counts[s].get(f, 0)`. -/
def cnt2 (m : SampleCounts) (s f : String) : Nat :=
  getCountI (getInner m s) f

/-- `defaultdict(int)` increment: `inner[f] += 1`. -/
def bump (inner : Inner) (f : String) : Inner :=
  updOrAppend inner f (· + 1) 0

/-- `sample_counts[s][f] += 1` on the two-level `defaultdict`. -/
def addHeader (m : SampleCounts) (s f : String) : SampleCounts :=
  updOrAppend m s (fun inner => bump inner f) []

/-- One loop iteration of `parse_fasta`: strip the line; on a header line
take `line[1:]` as the identifier, extract the sample ID, and increment;
other lines are ignored. -/
def parseStep (m : SampleCounts) (line : String) : SampleCounts :=
  let l := pyStrip line
  if startsWithGT l then
    let seqId := pyDrop1 l
    addHeader m (sampleIdOf seqId) seqId
  else m

/-- `parse_fasta`: fold `parseStep` over the input lines. -/
def parseFasta (lines : List String) : SampleCounts :=
  lines.foldl parseStep []

/-- The sequence of full identifiers of the input's header lines, in input
order (used to state the claims; not part of the program). -/
def fastaHeaders (lines : List String) : List String :=
  lines.filterMap fun line =>
    let l := pyStrip line
    if startsWithGT l then some (pyDrop1 l) else none

/-- `parse_fasta` restated as a fold over the header identifiers alone
(used in proofs; `parseFasta_eq_foldHeaders` connects the two). -/
def foldHeaders (m : SampleCounts) (hs : List String) : SampleCounts :=
  hs.foldl (fun acc h => addHeader acc (sampleIdOf h) h) m

/-- The outer dict's keys in insertion order (`sample_counts.keys()`). -/
def outerKeys (m : SampleCounts) : List String := m.map (·.1)

/-- All feature identifiers stored in the inner dicts, with repetition. -/
def allFeatureIds (m : SampleCounts) : List String :=
  m.flatMap fun p => p.2.map (·.1)

/-- Python `sorted` on strings (lexicographic by code point). -/
def sortStrings (l : List String) : List String :=
  List.insertionSort (· ≤ ·) l

/-- `sorted(sample_counts.keys())`. -/
def sortedSamples (m : SampleCounts) : List String :=
  sortStrings (outerKeys m)

/-- `sorted({seq_id for sample in sample_counts.values() for seq_id in sample})`. -/
def sortedFeatures (m : SampleCounts) : List String :=
  sortStrings (allFeatureIds m).dedup

/-- `write_feature_table`, as the list of lines written (each line is written
with a trailing `"\n"` in the script). -/
def writeFeatureTable (m : SampleCounts) : List String :=
  ("#OTU ID\t" ++ pyJoin "\t" (sortedSamples m)) ::
    (sortedFeatures m).map fun f =>
      f ++ "\t" ++ pyJoin "\t" ((sortedSamples m).map fun s => toString (cnt2 m s f))

/-- The whole pipeline: FASTA lines in, feature-table lines out. -/
def featureTable (lines : List String) : List String :=
  writeFeatureTable (parseFasta lines)

/-! ### Claim-side model of the feature-table output

The spec describes the output directly in terms of the input's header
identifiers; these definitions follow the spec's words, to be compared with
`featureTable` (which follows the code). -/

/-- Spec: "all observed SampleIDs sorted in ascending lexical order". -/
def specSamples (lines : List String) : List String :=
  sortStrings ((fastaHeaders lines).map sampleIdOf).dedup

/-- Spec: "one line per distinct feature identifier, sorted in ascending
lexical order". -/
def specFeatures (lines : List String) : List String :=
  sortStrings (fastaHeaders lines).dedup

/-- Spec: the count for `(s, f)` is the number of occurrences of `f` as a
header when `s` is its derived SampleID, "zero if that feature was never
observed under that SampleID". -/
def specCount (lines : List String) (s f : String) : Nat :=
  if sampleIdOf f = s then (fastaHeaders lines).count f else 0

/-- The output as the claim words it: first line `#OTU ID` followed by the
SampleIDs, tab-separated; then one line per feature, the feature followed by
its counts in the same sample order, tab-separated. -/
def claimFeatureTable (lines : List String) : List String :=
  pyJoin "\t" ("#OTU ID" :: specSamples lines) ::
    (specFeatures lines).map fun f =>
      pyJoin "\t" (f :: (specSamples lines).map fun s => toString (specCount lines s f))

/-! ### The `__main__` block of create_feature_table.py

The process is modelled as a pure function of the command-line arguments
(after the program name, i.e. `sys.argv[1:]`) and a read-file oracle giving
each path's lines. The observable outcome is the exit code, the lines
printed to standard output, and the files written. -/

/-- Observable outcome of one script invocation. -/
structure RunResult where
  exitCode : Nat
  stdoutLines : List String
  written : List (String × List String)
deriving DecidableEq, Repr

/-- The usage string printed when the argument count is wrong. -/
def usageMsg : String :=
  "Usage: python create_feature_table.py <input_fasta> <output_tsv>"

/-- `if len(sys.argv) != 3: print(usage); sys.exit(1)`; otherwise parse the
input, write the table, and print the completion message. -/
def featureTableMain (fs : String → List String) (args : List String) : RunResult :=
  match args with
  | [inputFasta, outputTsv] =>
    { exitCode := 0
      stdoutLines := ["Feature table written to " ++ outputTsv]
      written := [(outputTsv, featureTable (fs inputFasta))] }
  | _ => { exitCode := 1, stdoutLines := [usageMsg], written := [] }

/-! ## taxa_fasta.py -/

/-- A FASTA record as Biopython's `SeqIO.parse` yields it: `record.id` (the
identifier used for the taxonomy lookup) and the sequence data, which the
script copies through verbatim. `SeqIO` itself is a third-party library not
in this repository, so the FASTA input of taxa_fasta.py is modelled directly
as the list of records it parses, in file order. -/
structure FastaRecord where
  id : String
  seq : String
deriving DecidableEq, Repr

/-- `feature_to_taxon`: a Python dict, feature ID to taxon label. -/
abbrev TaxMap := List (String × String)

/-- Python `feature_to_taxon.get(feature_id)`. -/
def dlookup (m : TaxMap) (x : String) : Option String :=
  alookup m x

/-- Python `feature_to_taxon[feature_id] = taxon`. -/
def dinsert (m : TaxMap) (k v : String) : TaxMap :=
  updOrAppend m k (fun _ => v) ""

/-- One taxonomy line: `parts = line.strip().split("\t")`; when it has at
least two fields, store `parts[0] -> parts[1]`; otherwise skip the line. -/
def parseTaxLine (m : TaxMap) (line : String) : TaxMap :=
  match pySplit1 '\t' (pyStrip line) with
  | p0 :: p1 :: _ => dinsert m p0 p1
  | _ => m

/-- Step 1 of the script: `header = next(tax_file)` discards the first line
(raising on an empty file, hence `Option`), then every further line goes
through `parseTaxLine`. -/
def loadTaxonomy (lines : List String) : Option TaxMap :=
  match lines with
  | [] => none
  | _ :: rest => some (rest.foldl parseTaxLine [])

/-- `taxon_to_seqs`: taxon label to the records collected for it, in
insertion order. -/
abbrev TaxonGroups := List (String × List FastaRecord)

/-- `defaultdict(list)` append: `taxon_to_seqs[taxon].append(record)`. -/
def gappend (g : TaxonGroups) (t : String) (r : FastaRecord) : TaxonGroups :=
  updOrAppend g t (· ++ [r]) []

/-- One record of step 2: `taxon = feature_to_taxon.get(feature_id)` followed
by the truthiness test `if taxon:` — both a missing entry (`None`) and an
empty-string label fail the test and drop the record. -/
def groupStep (tax : TaxMap) (g : TaxonGroups) (r : FastaRecord) : TaxonGroups :=
  match dlookup tax r.id with
  | some t => if t = "" then g else gappend g t r
  | none => g

/-- Step 2 of the script: fold over the FASTA records in file order. -/
def groupRecords (tax : TaxMap) (records : List FastaRecord) : TaxonGroups :=
  records.foldl (groupStep tax) []

/-- `sanitize_filename`: keep alphanumerics and `.`/`_`/`-`, replace every
other character with `_` (the script's `c.isalnum()`, taken at its ASCII
meaning). -/
def sanitize_filename (name : String) : String :=
  ⟨name.data.map fun c =>
    if c.isAlphanum || c == '.' || c == '_' || c == '-' then c else '_'⟩

/-- The output filename derived from a taxon label. -/
def taxonFilename (t : String) : String :=
  sanitize_filename t ++ ".fasta"

/-- The output directory as a mapping from filename to the records written
into that file. -/
abbrev OutputDir := List (String × List FastaRecord)

/-- Writing a file: creates it, or silently overwrites an existing one of
the same name. -/
def writeRecFile (d : OutputDir) (name : String) (content : List FastaRecord) :
    OutputDir :=
  updOrAppend d name (fun _ => content) []

/-- Step 3 of the script: one `SeqIO.write` per taxon group, in the groups'
insertion order. -/
def writeGroups (groups : TaxonGroups) : OutputDir :=
  groups.foldl (fun d p => writeRecFile d (taxonFilename p.1) p.2) []

/-- Contents of the named file in the directory, if it exists. -/
def dirLookup (d : OutputDir) (x : String) : Option (List FastaRecord) :=
  alookup d x

/-- The records collected under taxon `t` (`[]` when no such group). -/
def groupEntry (g : TaxonGroups) (t : String) : List FastaRecord :=
  (alookup g t).getD []

/-- The whole taxa_fasta.py run: load the taxonomy (failing on an empty
taxonomy file, as `next(tax_file)` does), group the records, write the
per-taxon files. -/
def taxonSplitterMain (taxLines : List String) (records : List FastaRecord) :
    Option OutputDir :=
  (loadTaxonomy taxLines).map fun tax => writeGroups (groupRecords tax records)

/-! ## Generic association-list lemmas -/

theorem alookup_cons {α : Type} (a : String) (b : α) (rest : List (String × α))
    (x : String) :
    alookup ((a, b) :: rest) x = if a = x then some b else alookup rest x := rfl

theorem alookup_map_upd {α : Type} (m : List (String × α)) (k x : String)
    (f : α → α) :
    alookup (m.map (fun p => if p.1 = k then (p.1, f p.2) else p)) x =
      if k = x then (alookup m k).map f else alookup m x := by
  induction m with
  | nil => by_cases h : k = x <;> simp [alookup, h]
  | cons p rest ih =>
    obtain ⟨a, b⟩ := p
    have hmap : ((a, b) :: rest).map (fun p => if p.1 = k then (p.1, f p.2) else p)
        = (if a = k then (a, f b) else (a, b)) ::
            rest.map (fun p => if p.1 = k then (p.1, f p.2) else p) := rfl
    rw [hmap]
    by_cases hak : a = k
    · subst hak
      rw [if_pos rfl]
      by_cases hax : a = x
      · subst hax
        simp [alookup_cons]
      · simp [alookup_cons, hax, ih]
    · have hka : ¬ k = a := fun h => hak h.symm
      rw [if_neg hak]
      by_cases hax : a = x
      · subst hax
        simp [alookup_cons, hak, hka]
      · simp [alookup_cons, hak, hax, ih]

theorem alookup_append {α : Type} (l₁ l₂ : List (String × α)) (x : String) :
    alookup (l₁ ++ l₂) x = (alookup l₁ x).orElse (fun _ => alookup l₂ x) := by
  induction l₁ with
  | nil => simp [alookup, Option.orElse]
  | cons p rest ih =>
    obtain ⟨a, b⟩ := p
    by_cases hax : a = x <;> simp [alookup, hax, ih, Option.orElse]

theorem alookup_eq_none_of_not_any {α : Type} (m : List (String × α))
    (k : String) (h : m.any (fun p => p.1 = k) = false) : alookup m k = none := by
  induction m with
  | nil => rfl
  | cons p rest ih =>
    simp only [List.any_cons, Bool.or_eq_false_iff] at h
    have hk : ¬ p.1 = k := by simpa using h.1
    simp [alookup, hk, ih h.2]

theorem alookup_isSome_of_any {α : Type} (m : List (String × α)) (k : String)
    (h : m.any (fun p => p.1 = k) = true) : (alookup m k).isSome := by
  induction m with
  | nil => simp at h
  | cons p rest ih =>
    by_cases hk : p.1 = k
    · obtain ⟨a, b⟩ := p
      subst hk
      simp [alookup]
    · obtain ⟨a, b⟩ := p
      simp only [List.any_cons, Bool.or_eq_true] at h
      rcases h with h | h
      · simp_all
      · simpa [alookup, hk] using ih h

/-- The master lookup-after-update lemma: updating key `k` changes only the
entry under `k`, which becomes `f` of its previous value (or of the default
`i` when `k` was absent). -/
theorem alookup_updOrAppend {α : Type} (m : List (String × α)) (k x : String)
    (f : α → α) (i : α) :
    alookup (updOrAppend m k f i) x =
      if k = x then some (f ((alookup m k).getD i)) else alookup m x := by
  unfold updOrAppend
  by_cases hany : m.any (fun p => p.1 = k) = true
  · rw [if_pos hany, alookup_map_upd]
    by_cases hkx : k = x
    · subst hkx
      obtain ⟨v, hv⟩ := Option.isSome_iff_exists.mp (alookup_isSome_of_any m k hany)
      rw [if_pos rfl, if_pos rfl, hv]
      rfl
    · rw [if_neg hkx, if_neg hkx]
  · rw [if_neg hany]
    have hfalse : m.any (fun p => p.1 = k) = false := by
      cases h : m.any (fun p => p.1 = k)
      · rfl
      · exact absurd h hany
    have hnone := alookup_eq_none_of_not_any m k hfalse
    rw [alookup_append]
    by_cases hkx : k = x
    · subst hkx
      simp [hnone, alookup, Option.orElse]
    · have h1 : alookup [(k, f i)] x = none := by simp [alookup, hkx]
      cases hm : alookup m x <;> simp [hkx, h1, hm, Option.orElse]

theorem keys_updOrAppend {α : Type} (m : List (String × α)) (k : String)
    (f : α → α) (i : α) :
    (updOrAppend m k f i).map (·.1) =
      if m.any (fun p => p.1 = k) then m.map (·.1) else m.map (·.1) ++ [k] := by
  unfold updOrAppend
  by_cases hany : m.any (fun p => p.1 = k) = true
  · rw [if_pos hany, if_pos hany, List.map_map]
    apply List.map_congr_left
    intro p _
    by_cases hk : p.1 = k <;> simp [hk]
  · simp only [hany]
    simp

theorem any_eq_true_iff_mem_keys {α : Type} (m : List (String × α)) (k : String) :
    m.any (fun p => p.1 = k) = true ↔ k ∈ m.map (·.1) := by
  rw [List.any_eq_true, List.mem_map]
  constructor
  · rintro ⟨p, hp, hk⟩
    exact ⟨p, hp, by simpa using hk⟩
  · rintro ⟨p, hp, hk⟩
    exact ⟨p, hp, by simpa using hk⟩

theorem mem_keys_updOrAppend {α : Type} (m : List (String × α)) (k x : String)
    (f : α → α) (i : α) :
    x ∈ (updOrAppend m k f i).map (·.1) ↔ x ∈ m.map (·.1) ∨ x = k := by
  rw [keys_updOrAppend]
  by_cases hany : m.any (fun p => p.1 = k) = true
  · rw [if_pos hany]
    constructor
    · exact Or.inl
    · rintro (h | rfl)
      · exact h
      · exact (any_eq_true_iff_mem_keys m x).mp hany
  · simp [hany]

theorem nodup_keys_updOrAppend {α : Type} (m : List (String × α)) (k : String)
    (f : α → α) (i : α) (h : (m.map (·.1)).Nodup) :
    ((updOrAppend m k f i).map (·.1)).Nodup := by
  rw [keys_updOrAppend]
  by_cases hany : m.any (fun p => p.1 = k) = true
  · rwa [if_pos hany]
  · rw [if_neg hany]
    have hk : k ∉ m.map (·.1) := fun hmem =>
      hany ((any_eq_true_iff_mem_keys m k).mpr hmem)
    simp [List.nodup_append, h, hk]

theorem mem_updOrAppend {α : Type} {m : List (String × α)} {k : String}
    {f : α → α} {i : α} {p : String × α} (hp : p ∈ updOrAppend m k f i) :
    p ∈ m ∨ ∃ v, p = (k, f v) ∧ ((k, v) ∈ m ∨ v = i) := by
  unfold updOrAppend at hp
  by_cases hany : m.any (fun q => q.1 = k) = true
  · rw [if_pos hany] at hp
    obtain ⟨q, hq, heq⟩ := List.mem_map.mp hp
    by_cases hk : q.1 = k
    · right
      refine ⟨q.2, ?_, Or.inl ?_⟩
      · rw [← heq]; simp [hk]
      · rw [← hk]
        simpa using hq
    · left
      rw [← heq]
      simpa [hk] using hq
  · rw [if_neg hany] at hp
    rcases List.mem_append.mp hp with h | h
    · exact Or.inl h
    · right
      exact ⟨i, by simpa using h, Or.inr rfl⟩

/-! ## String-helper lemmas -/

theorem pyJoin_cons (sep x : String) (xs : List String) (h : xs ≠ []) :
    pyJoin sep (x :: xs) = x ++ sep ++ pyJoin sep xs := by
  cases xs with
  | nil => exact absurd rfl h
  | cons y ys => rfl

theorem pySplitList_ne_nil (c : Char) (l : List Char) : pySplitList c l ≠ [] := by
  induction l with
  | nil => simp [pySplitList]
  | cons x xs ih =>
    rw [pySplitList]
    by_cases hx : x = c
    · simp [hx]
    · rw [if_neg hx]
      cases h : pySplitList c xs with
      | nil => exact absurd h ih
      | cons a t => simp

theorem pySplitList_head (c : Char) (l : List Char) :
    (pySplitList c l).headD [] = l.takeWhile (fun x => x ≠ c) := by
  induction l with
  | nil => rfl
  | cons x xs ih =>
    rw [pySplitList, List.takeWhile_cons]
    by_cases hx : x = c
    · simp [hx]
    · rw [if_neg hx]
      have hd : decide (x ≠ c) = true := by simpa using hx
      rw [hd]
      cases h : pySplitList c xs with
      | nil => exact absurd h (pySplitList_ne_nil c xs)
      | cons a t =>
        rw [h] at ih
        simpa using ih

/-- The sample ID is the identifier's prefix up to (not including) the first
underscore. -/
theorem sampleIdOf_eq_takeWhile (ident : String) :
    sampleIdOf ident = ⟨ident.data.takeWhile (fun x => x ≠ '_')⟩ := by
  unfold sampleIdOf pySplit1
  cases h : pySplitList '_' ident.data with
  | nil => exact absurd h (pySplitList_ne_nil '_' ident.data)
  | cons a t =>
    have := pySplitList_head '_' ident.data
    rw [h] at this
    simp only [List.map_cons, List.headD_cons]
    rw [← this]
    rfl

/-- When the identifier has no underscore, the sample ID is the whole
identifier. -/
theorem sampleIdOf_of_no_underscore (ident : String) (h : '_' ∉ ident.data) :
    sampleIdOf ident = ident := by
  rw [sampleIdOf_eq_takeWhile]
  have : ident.data.takeWhile (fun x => x ≠ '_') = ident.data := by
    apply List.takeWhile_eq_self_iff.mpr
    intro c hc
    simp only [ne_eq, decide_eq_true_eq]
    exact fun hcu => h (hcu ▸ hc)
  rw [this]

/-! ## parse_fasta lemmas -/

theorem parseStep_header (m : SampleCounts) (line : String)
    (h : startsWithGT (pyStrip line) = true) :
    parseStep m line =
      addHeader m (sampleIdOf (pyDrop1 (pyStrip line))) (pyDrop1 (pyStrip line)) := by
  simp [parseStep, h]

theorem parseStep_nonheader (m : SampleCounts) (line : String)
    (h : startsWithGT (pyStrip line) = false) :
    parseStep m line = m := by
  simp [parseStep, h]

theorem fastaHeaders_cons_header (line : String) (rest : List String)
    (h : startsWithGT (pyStrip line) = true) :
    fastaHeaders (line :: rest) = pyDrop1 (pyStrip line) :: fastaHeaders rest := by
  simp [fastaHeaders, h]

theorem fastaHeaders_cons_nonheader (line : String) (rest : List String)
    (h : startsWithGT (pyStrip line) = false) :
    fastaHeaders (line :: rest) = fastaHeaders rest := by
  simp [fastaHeaders, h]

/-- `parse_fasta` is the header fold: non-header lines do not change the
accumulated counts. -/
theorem parseFasta_eq_foldHeaders (lines : List String) :
    parseFasta lines = foldHeaders [] (fastaHeaders lines) := by
  suffices h : ∀ (ls : List String) (m : SampleCounts),
      ls.foldl parseStep m = foldHeaders m (fastaHeaders ls) by
    exact h lines []
  intro ls
  induction ls with
  | nil => intro m; rfl
  | cons line rest ih =>
    intro m
    rw [List.foldl_cons]
    cases hl : startsWithGT (pyStrip line) with
    | true =>
      rw [parseStep_header m line hl, fastaHeaders_cons_header line rest hl, ih]
      rfl
    | false =>
      rw [parseStep_nonheader m line hl, fastaHeaders_cons_nonheader line rest hl, ih]

theorem getCountI_bump (inner : Inner) (f f' : String) :
    getCountI (bump inner f) f' =
      getCountI inner f' + (if f = f' then 1 else 0) := by
  unfold getCountI bump
  rw [alookup_updOrAppend]
  by_cases h : f = f'
  · subst h
    cases alookup inner f <;> simp
  · simp [h]

theorem cnt2_addHeader (m : SampleCounts) (s f s' f' : String) :
    cnt2 (addHeader m s f) s' f' =
      cnt2 m s' f' + (if s = s' ∧ f = f' then 1 else 0) := by
  unfold cnt2 getInner addHeader
  rw [alookup_updOrAppend]
  by_cases hs : s = s'
  · subst hs
    rw [if_pos rfl]
    simp only [Option.getD_some]
    rw [getCountI_bump]
    by_cases hf : f = f' <;> simp [hf]
  · simp [hs]

theorem cnt2_foldHeaders (hs : List String) (m : SampleCounts) (s f : String) :
    cnt2 (foldHeaders m hs) s f =
      cnt2 m s f + (if sampleIdOf f = s then hs.count f else 0) := by
  induction hs generalizing m with
  | nil => simp [foldHeaders]
  | cons h t ih =>
    show cnt2 (foldHeaders (addHeader m (sampleIdOf h) h) t) s f = _
    rw [ih, cnt2_addHeader]
    have hcount : (h :: t).count f = t.count f + (if h = f then 1 else 0) := by
      rw [List.count_cons]
      by_cases hh : h = f <;> simp [hh]
    rw [hcount]
    by_cases hh : h = f
    · subst hh
      by_cases hsf : sampleIdOf h = s
      · simp only [hsf, and_self, if_pos rfl, if_true]
        omega
      · simp [hsf]
    · have hna : ¬ (sampleIdOf h = s ∧ h = f) := fun hc => hh hc.2
      rw [if_neg hna]
      by_cases hsf : sampleIdOf f = s
      · simp only [hsf, if_true, hh, if_false]
        omega
      · simp [hsf]

/-- The count stored for `(s, f)` after parsing: the number of occurrences
of `f` as a header identifier when `s` is `f`'s derived sample ID, zero
otherwise. -/
theorem cnt2_parseFasta (lines : List String) (s f : String) :
    cnt2 (parseFasta lines) s f =
      if sampleIdOf f = s then (fastaHeaders lines).count f else 0 := by
  rw [parseFasta_eq_foldHeaders, cnt2_foldHeaders]
  have h0 : cnt2 [] s f = 0 := rfl
  rw [h0, Nat.zero_add]

/-! ## Key-set lemmas for the two dict levels -/

theorem alookup_mem {α : Type} {m : List (String × α)} {k : String} {v : α}
    (h : alookup m k = some v) : (k, v) ∈ m := by
  induction m with
  | nil => simp [alookup] at h
  | cons p rest ih =>
    obtain ⟨a, b⟩ := p
    rw [alookup_cons] at h
    by_cases hak : a = k
    · rw [if_pos hak] at h
      subst hak
      obtain rfl : b = v := by simpa using h
      exact List.mem_cons_self _ _
    · rw [if_neg hak] at h
      exact List.mem_cons_of_mem _ (ih h)

theorem mem_outerKeys_addHeader (m : SampleCounts) (s f x : String) :
    x ∈ outerKeys (addHeader m s f) ↔ x ∈ outerKeys m ∨ x = s :=
  mem_keys_updOrAppend m s x _ []

theorem mem_outerKeys_foldHeaders (hs : List String) (m : SampleCounts)
    (x : String) :
    x ∈ outerKeys (foldHeaders m hs) ↔
      x ∈ outerKeys m ∨ x ∈ hs.map sampleIdOf := by
  induction hs generalizing m with
  | nil => simp [foldHeaders]
  | cons h t ih =>
    show x ∈ outerKeys (foldHeaders (addHeader m (sampleIdOf h) h) t) ↔ _
    rw [ih, mem_outerKeys_addHeader, List.map_cons, List.mem_cons]
    tauto

theorem nodup_outerKeys_foldHeaders (hs : List String) (m : SampleCounts)
    (hm : (outerKeys m).Nodup) : (outerKeys (foldHeaders m hs)).Nodup := by
  induction hs generalizing m with
  | nil => exact hm
  | cons h t ih =>
    exact ih _ (nodup_keys_updOrAppend m (sampleIdOf h) _ [] hm)

theorem mem_keys_bump (inner : Inner) (f x : String) :
    x ∈ (bump inner f).map (·.1) ↔ x ∈ inner.map (·.1) ∨ x = f :=
  mem_keys_updOrAppend inner f x _ 0

theorem mem_allFeatureIds_addHeader (m : SampleCounts) (s f x : String) :
    x ∈ allFeatureIds (addHeader m s f) ↔ x ∈ allFeatureIds m ∨ x = f := by
  constructor
  · intro hx
    obtain ⟨p, hp, hxp⟩ := List.mem_flatMap.mp hx
    rcases mem_updOrAppend hp with hpm | ⟨v, heq, hv⟩
    · exact Or.inl (List.mem_flatMap.mpr ⟨p, hpm, hxp⟩)
    · have hxp' : x ∈ (bump v f).map (·.1) := by rw [heq] at hxp; exact hxp
      rcases (mem_keys_bump v f x).mp hxp' with hxv | hxf
      · rcases hv with hvm | hvnil
        · exact Or.inl (List.mem_flatMap.mpr ⟨(s, v), hvm, hxv⟩)
        · rw [hvnil] at hxv
          simp at hxv
      · exact Or.inr hxf
  · intro hx
    unfold addHeader updOrAppend
    by_cases hany : m.any (fun p => p.1 = s) = true
    · rw [if_pos hany]
      rcases hx with hx | hxf
      · obtain ⟨p, hp, hxp⟩ := List.mem_flatMap.mp hx
        by_cases hps : p.1 = s
        · refine List.mem_flatMap.mpr ⟨(p.1, bump p.2 f), ?_, ?_⟩
          · exact List.mem_map.mpr ⟨p, hp, by simp [hps]⟩
          · exact (mem_keys_bump p.2 f x).mpr (Or.inl hxp)
        · refine List.mem_flatMap.mpr ⟨p, ?_, hxp⟩
          exact List.mem_map.mpr ⟨p, hp, by simp [hps]⟩
      · obtain ⟨v, hv⟩ := Option.isSome_iff_exists.mp (alookup_isSome_of_any m s hany)
        refine List.mem_flatMap.mpr ⟨(s, bump v f), ?_, ?_⟩
        · refine List.mem_map.mpr ⟨(s, v), alookup_mem hv, ?_⟩
          simp
        · exact (mem_keys_bump v f x).mpr (Or.inr hxf)
    · rw [if_neg hany]
      rcases hx with hx | hxf
      · obtain ⟨p, hp, hxp⟩ := List.mem_flatMap.mp hx
        exact List.mem_flatMap.mpr ⟨p, List.mem_append_left _ hp, hxp⟩
      · refine List.mem_flatMap.mpr ⟨(s, bump [] f), ?_, ?_⟩
        · exact List.mem_append_right _ (List.mem_singleton.mpr rfl)
        · exact (mem_keys_bump [] f x).mpr (Or.inr hxf)

theorem mem_allFeatureIds_foldHeaders (hs : List String) (m : SampleCounts)
    (x : String) :
    x ∈ allFeatureIds (foldHeaders m hs) ↔ x ∈ allFeatureIds m ∨ x ∈ hs := by
  induction hs generalizing m with
  | nil => simp [foldHeaders]
  | cons h t ih =>
    show x ∈ allFeatureIds (foldHeaders (addHeader m (sampleIdOf h) h) t) ↔ _
    rw [ih, mem_allFeatureIds_addHeader, List.mem_cons]
    tauto

/-! ## Sorting lemmas -/

theorem sortStrings_sorted (l : List String) :
    (sortStrings l).Sorted (· ≤ ·) :=
  List.sorted_insertionSort _ l

theorem sortStrings_perm (l : List String) : (sortStrings l).Perm l :=
  List.perm_insertionSort _ l

theorem mem_sortStrings (l : List String) (x : String) :
    x ∈ sortStrings l ↔ x ∈ l :=
  (sortStrings_perm l).mem_iff

theorem nodup_sortStrings (l : List String) (h : l.Nodup) :
    (sortStrings l).Nodup :=
  ((sortStrings_perm l).nodup_iff).mpr h

/-- Two duplicate-free lists with the same members sort to the same list. -/
theorem sortStrings_eq_of_mem_iff (l₁ l₂ : List String) (h₁ : l₁.Nodup)
    (h₂ : l₂.Nodup) (hmem : ∀ x, x ∈ l₁ ↔ x ∈ l₂) :
    sortStrings l₁ = sortStrings l₂ := by
  refine List.eq_of_perm_of_sorted ?_ (sortStrings_sorted l₁) (sortStrings_sorted l₂)
  exact ((sortStrings_perm l₁).trans
    ((List.perm_ext_iff_of_nodup h₁ h₂).mpr hmem)).trans (sortStrings_perm l₂).symm

/-- The code's sample columns equal the spec's: the sorted set of distinct
SampleID prefixes of the header identifiers. -/
theorem sortedSamples_parseFasta (lines : List String) :
    sortedSamples (parseFasta lines) = specSamples lines := by
  rw [sortedSamples, specSamples, parseFasta_eq_foldHeaders]
  apply sortStrings_eq_of_mem_iff
  · exact nodup_outerKeys_foldHeaders _ [] (by simp [outerKeys])
  · exact List.nodup_dedup _
  · intro x
    rw [mem_outerKeys_foldHeaders, List.mem_dedup]
    simp [outerKeys]

/-- The code's feature rows equal the spec's: the sorted set of distinct
header identifiers. -/
theorem sortedFeatures_parseFasta (lines : List String) :
    sortedFeatures (parseFasta lines) = specFeatures lines := by
  rw [sortedFeatures, specFeatures, parseFasta_eq_foldHeaders]
  apply sortStrings_eq_of_mem_iff
  · exact List.nodup_dedup _
  · exact List.nodup_dedup _
  · intro x
    rw [List.mem_dedup, List.mem_dedup, mem_allFeatureIds_foldHeaders]
    simp [allFeatureIds]

theorem mem_sortedFeatures_iff (lines : List String) (f : String) :
    f ∈ sortedFeatures (parseFasta lines) ↔ f ∈ fastaHeaders lines := by
  rw [sortedFeatures, mem_sortStrings, List.mem_dedup, parseFasta_eq_foldHeaders,
    mem_allFeatureIds_foldHeaders]
  simp [allFeatureIds]

theorem mem_sortedSamples_iff (lines : List String) (s : String) :
    s ∈ sortedSamples (parseFasta lines) ↔
      s ∈ (fastaHeaders lines).map sampleIdOf := by
  rw [sortedSamples, mem_sortStrings, parseFasta_eq_foldHeaders,
    mem_outerKeys_foldHeaders]
  simp [outerKeys]

theorem nodup_sortedSamples (lines : List String) :
    (sortedSamples (parseFasta lines)).Nodup := by
  rw [sortedSamples, parseFasta_eq_foldHeaders]
  exact nodup_sortStrings _ (nodup_outerKeys_foldHeaders _ [] (by simp [outerKeys]))

/-! ## Row-sum lemmas -/

theorem sum_map_ite_zero (l : List String) (a : String) (c : Nat)
    (ha : a ∉ l) : (l.map (fun s => if a = s then c else 0)).sum = 0 := by
  induction l with
  | nil => rfl
  | cons x t ih =>
    have hax : ¬ a = x := fun h => ha (h ▸ List.mem_cons_self x t)
    simp only [List.map_cons, List.sum_cons, if_neg hax]
    rw [ih (fun h => ha (List.mem_cons_of_mem x h))]

theorem sum_map_ite_single (l : List String) (a : String) (c : Nat)
    (hnd : l.Nodup) (ha : a ∈ l) :
    (l.map (fun s => if a = s then c else 0)).sum = c := by
  induction l with
  | nil => simp at ha
  | cons x t ih =>
    rcases List.mem_cons.mp ha with rfl | hat
    · simp only [List.map_cons, List.sum_cons, if_pos rfl]
      rw [sum_map_ite_zero t a c (List.nodup_cons.mp hnd).1]
      simp
    · have hax : ¬ a = x := fun h =>
        (List.nodup_cons.mp hnd).1 (h ▸ hat)
      simp only [List.map_cons, List.sum_cons, if_neg hax]
      rw [ih (List.nodup_cons.mp hnd).2 hat, Nat.zero_add]

/-! ## Claim C1 -/

/-- C1 (amended): for every FASTA input with at least one header line, the
feature table equals the claimed layout — first line `#OTU ID` followed by
the observed SampleIDs in ascending lexical order, tab-separated; then one
line per distinct full feature identifier in ascending lexical order,
followed by its count for every SampleID in the same order, 0 when the
feature was never observed under that SampleID. When the input has no
header line the first line is `#OTU ID` followed by a trailing tab (the
code appends the tab before joining the empty sample list), and there are
no further lines — the only point where the claim as stated fails. -/
theorem c1_feature_table_format (lines : List String) :
    (fastaHeaders lines ≠ [] → featureTable lines = claimFeatureTable lines) ∧
    (fastaHeaders lines = [] → featureTable lines = ["#OTU ID\t"]) := by
  constructor
  · intro hne
    have hss := sortedSamples_parseFasta lines
    have hff := sortedFeatures_parseFasta lines
    have hssne : specSamples lines ≠ [] := by
      cases hh : fastaHeaders lines with
      | nil => exact absurd hh hne
      | cons h t =>
        have hmem : sampleIdOf h ∈ specSamples lines := by
          rw [specSamples, mem_sortStrings, List.mem_dedup]
          exact List.mem_map_of_mem _ (hh ▸ List.mem_cons_self h t)
        exact List.ne_nil_of_mem hmem
    show writeFeatureTable (parseFasta lines) = claimFeatureTable lines
    unfold writeFeatureTable claimFeatureTable
    rw [hss, hff]
    congr 1
    · rw [pyJoin_cons "\t" "#OTU ID" _ hssne]
      rfl
    · apply List.map_congr_left
      intro f hf
      have hmap : (specSamples lines).map
            (fun s => toString (cnt2 (parseFasta lines) s f))
          = (specSamples lines).map (fun s => toString (specCount lines s f)) := by
        apply List.map_congr_left
        intro s hs
        rw [cnt2_parseFasta]
        rfl
      have hLne : (specSamples lines).map
          (fun s => toString (specCount lines s f)) ≠ [] := by
        cases hsp : specSamples lines with
        | nil => exact absurd hsp hssne
        | cons a t => simp
      rw [hmap, pyJoin_cons "\t" f _ hLne]
  · intro hnil
    show writeFeatureTable (parseFasta lines) = ["#OTU ID\t"]
    rw [parseFasta_eq_foldHeaders, hnil]
    rfl

/-- C1 counterexample: on the empty FASTA input the code writes the single
line `#OTU ID` followed by a trailing tab, while the claimed layout is the
bare `#OTU ID`; the claim as stated is false at this input. -/
theorem c1_counterexample :
    featureTable [] = ["#OTU ID\t"] ∧ claimFeatureTable [] = ["#OTU ID"] ∧
      featureTable [] ≠ claimFeatureTable [] := by
  refine ⟨rfl, rfl, ?_⟩
  decide

/-- C1 witness: the spec's Scenario 1, with the hypothesis of
`c1_feature_table_format` discharged at a concrete input. -/
theorem c1_witness :
    featureTable [">BRK01_1", "ACGT", ">BRK01_2", "ACGT", ">BRK02_1", "ACGT"] =
      claimFeatureTable [">BRK01_1", "ACGT", ">BRK01_2", "ACGT", ">BRK02_1", "ACGT"] :=
  (c1_feature_table_format _).1 (by decide)

/-! ## Claim C3 -/

/-- C3: on every header line (a line whose stripped form starts with `>`),
`parse_fasta` takes as identifier the stripped line with the leading marker
removed, and increments the count for the derived SampleID; the SampleID is
the identifier's prefix up to (not including) the first underscore, and it
equals the whole identifier when no underscore occurs. -/
theorem c3_header_parsing :
    (∀ (m : SampleCounts) (line : String),
        startsWithGT (pyStrip line) = true →
          parseStep m line =
            addHeader m (sampleIdOf (pyDrop1 (pyStrip line))) (pyDrop1 (pyStrip line))) ∧
    (∀ ident : String,
        sampleIdOf ident = ⟨ident.data.takeWhile (fun x => x ≠ '_')⟩) ∧
    (∀ ident : String, '_' ∉ ident.data → sampleIdOf ident = ident) :=
  ⟨parseStep_header, sampleIdOf_eq_takeWhile, sampleIdOf_of_no_underscore⟩

/-- C3 witness: the three parts of `c3_header_parsing` at concrete inputs
(`>BRK01_1` has a header marker and an underscore; `BRK01` has none). -/
theorem c3_witness :
    parseStep [] ">BRK01_1" = addHeader [] "BRK01" "BRK01_1" ∧
      sampleIdOf "BRK01_1" = "BRK01" ∧ sampleIdOf "BRK01" = "BRK01" := by
  refine ⟨?_, ?_, ?_⟩
  · have h := c3_header_parsing.1 [] ">BRK01_1" (by decide)
    simpa using h
  · have h := c3_header_parsing.2.1 "BRK01_1"
    simpa using h
  · exact c3_header_parsing.2.2 "BRK01" (by decide)

/-! ## Claim C4 -/

/-- C4: for every feature row of the output, the sum of its counts across
all sample columns equals the number of occurrences of that exact
identifier as a header in the input (`List.count` counts every occurrence,
so a duplicated header accumulates rather than overwrites). -/
theorem c4_row_sum (lines : List String) (f : String)
    (hf : f ∈ sortedFeatures (parseFasta lines)) :
    ((sortedSamples (parseFasta lines)).map
        (fun s => cnt2 (parseFasta lines) s f)).sum =
      (fastaHeaders lines).count f := by
  have hmem : sampleIdOf f ∈ sortedSamples (parseFasta lines) := by
    rw [mem_sortedSamples_iff]
    exact List.mem_map_of_mem _ ((mem_sortedFeatures_iff lines f).mp hf)
  have hmap : (sortedSamples (parseFasta lines)).map
        (fun s => cnt2 (parseFasta lines) s f)
      = (sortedSamples (parseFasta lines)).map
        (fun s => if sampleIdOf f = s then (fastaHeaders lines).count f else 0) := by
    apply List.map_congr_left
    intro s hs
    rw [cnt2_parseFasta]
  rw [hmap]
  exact sum_map_ite_single _ _ _ (nodup_sortedSamples lines) hmem

/-- C4 witness: in `[">B_1", ">B_1", ">A_2"]` the duplicated header `B_1`
has row sum 2. -/
theorem c4_witness :
    ((sortedSamples (parseFasta [">B_1", ">B_1", ">A_2"])).map
        (fun s => cnt2 (parseFasta [">B_1", ">B_1", ">A_2"]) s "B_1")).sum =
      (fastaHeaders [">B_1", ">B_1", ">A_2"]).count "B_1" ∧
    (fastaHeaders [">B_1", ">B_1", ">A_2"]).count "B_1" = 2 :=
  ⟨c4_row_sum [">B_1", ">B_1", ">A_2"] "B_1"
      ((mem_sortedFeatures_iff _ _).mpr (by decide)), by decide⟩

/-! ## Claim C10 -/

/-- C10: every feature row is nonzero in exactly one sample column, the one
whose SampleID is the prefix derived from the feature's own identifier;
every other sample column of that row holds 0. -/
theorem c10_single_nonzero_column (lines : List String) (f : String)
    (hf : f ∈ sortedFeatures (parseFasta lines)) :
    0 < cnt2 (parseFasta lines) (sampleIdOf f) f ∧
    ∀ s ∈ sortedSamples (parseFasta lines), s ≠ sampleIdOf f →
      cnt2 (parseFasta lines) s f = 0 := by
  constructor
  · rw [cnt2_parseFasta, if_pos rfl]
    exact List.count_pos_iff.mpr ((mem_sortedFeatures_iff lines f).mp hf)
  · intro s hs hneq
    rw [cnt2_parseFasta, if_neg (fun h => hneq h.symm)]

/-- C10 witness: for input `[">B_1", ">A_2"]`, feature `B_1` is nonzero in
column `B` and holds 0 in column `A`. -/
theorem c10_witness :
    0 < cnt2 (parseFasta [">B_1", ">A_2"]) (sampleIdOf "B_1") "B_1" ∧
      cnt2 (parseFasta [">B_1", ">A_2"]) "A" "B_1" = 0 := by
  have h := c10_single_nonzero_column [">B_1", ">A_2"] "B_1"
    ((mem_sortedFeatures_iff _ _).mpr (by decide))
  exact ⟨h.1, h.2 "A" ((mem_sortedSamples_iff _ _).mpr (by decide)) (by decide)⟩

/-! ## Claim C8 -/

/-- C8: invoked with any number of positional arguments other than exactly
two, the script prints the usage string exactly once to standard output,
exits with code 1, and writes no output file. -/
theorem c8_usage_error (fs : String → List String) (args : List String)
    (h : args.length ≠ 2) :
    featureTableMain fs args =
      { exitCode := 1, stdoutLines := [usageMsg], written := [] } := by
  match args with
  | [] => rfl
  | [_] => rfl
  | [_, _] => exact absurd rfl h
  | _ :: _ :: _ :: _ => rfl

/-- C8 witness: zero arguments. -/
theorem c8_witness :
    featureTableMain (fun _ => []) [] =
      { exitCode := 1, stdoutLines := [usageMsg], written := [] } :=
  c8_usage_error (fun _ => []) [] (by decide)

/-! ## Claim C9 -/

/-- C9: the run is a deterministic function of the input file's content:
two invocations whose read-file oracles agree on the input path (in
particular, two runs on the same unchanged file) produce identical
results — same exit code, same message, and byte-identical output file. -/
theorem c9_deterministic (fs₁ fs₂ : String → List String)
    (inputPath outputPath : String) (h : fs₁ inputPath = fs₂ inputPath) :
    featureTableMain fs₁ [inputPath, outputPath] =
      featureTableMain fs₂ [inputPath, outputPath] := by
  simp [featureTableMain, h]

/-- C9 witness: two identical invocations at a concrete input. -/
theorem c9_witness :
    featureTableMain (fun _ => [">A_1"]) ["in.fasta", "out.tsv"] =
      featureTableMain (fun _ => [">A_1"]) ["in.fasta", "out.tsv"] :=
  c9_deterministic _ _ "in.fasta" "out.tsv" rfl

/-! ## taxa_fasta.py lemmas -/

theorem groupEntry_gappend (g : TaxonGroups) (u t : String) (r : FastaRecord) :
    groupEntry (gappend g u r) t =
      if u = t then groupEntry g t ++ [r] else groupEntry g t := by
  unfold groupEntry gappend
  rw [alookup_updOrAppend]
  by_cases h : u = t
  · subst h
    simp
  · simp [h]

theorem groupEntry_foldl (tax : TaxMap) (rs : List FastaRecord)
    (g : TaxonGroups) (t : String) (ht : t ≠ "") :
    groupEntry (rs.foldl (groupStep tax) g) t =
      groupEntry g t ++ rs.filter (fun r => dlookup tax r.id == some t) := by
  induction rs generalizing g with
  | nil => simp
  | cons r rest ih =>
    rw [List.foldl_cons, List.filter_cons, ih]
    cases hl : dlookup tax r.id with
    | none =>
      have hstep : groupStep tax g r = g := by simp [groupStep, hl]
      rw [hstep]
      simp
    | some u =>
      by_cases hu : u = ""
      · subst hu
        have hstep : groupStep tax g r = g := by simp [groupStep, hl]
        have hne : ¬ ("" = t) := fun h => ht h.symm
        rw [hstep]
        simp [hne]
      · have hstep : groupStep tax g r = gappend g u r := by simp [groupStep, hl, hu]
        rw [hstep]
        by_cases hut : u = t
        · subst hut
          rw [groupEntry_gappend, if_pos rfl]
          simp
        · rw [groupEntry_gappend, if_neg hut]
          simp [hut]

theorem groupEntry_empty_foldl (tax : TaxMap) (rs : List FastaRecord)
    (g : TaxonGroups) (hg : groupEntry g "" = []) :
    groupEntry (rs.foldl (groupStep tax) g) "" = [] := by
  induction rs generalizing g with
  | nil => exact hg
  | cons r rest ih =>
    rw [List.foldl_cons]
    apply ih
    cases hl : dlookup tax r.id with
    | none => simpa [groupStep, hl] using hg
    | some u =>
      by_cases hu : u = ""
      · subst hu
        simpa [groupStep, hl] using hg
      · have hstep : groupStep tax g r = gappend g u r := by simp [groupStep, hl, hu]
        rw [hstep, groupEntry_gappend, if_neg hu]
        exact hg

/-- Every group built by `taxon_to_seqs` carries a non-empty taxon label,
and every record in it looked that label up in the taxonomy map. -/
theorem groupRecords_inv (tax : TaxMap) (rs : List FastaRecord)
    (g : TaxonGroups)
    (hg : ∀ p ∈ g, p.1 ≠ "" ∧ ∀ r ∈ p.2, dlookup tax r.id = some p.1) :
    ∀ p ∈ rs.foldl (groupStep tax) g,
      p.1 ≠ "" ∧ ∀ r ∈ p.2, dlookup tax r.id = some p.1 := by
  induction rs generalizing g with
  | nil => exact hg
  | cons r rest ih =>
    rw [List.foldl_cons]
    apply ih
    intro p hp
    cases hl : dlookup tax r.id with
    | none =>
      have hstep : groupStep tax g r = g := by simp [groupStep, hl]
      exact hg p (by rwa [hstep] at hp)
    | some u =>
      by_cases hu : u = ""
      · subst hu
        have hstep : groupStep tax g r = g := by simp [groupStep, hl]
        exact hg p (by rwa [hstep] at hp)
      · have hstep : groupStep tax g r = gappend g u r := by simp [groupStep, hl, hu]
        rw [hstep] at hp
        rcases mem_updOrAppend hp with hpg | ⟨v, heq, hv⟩
        · exact hg p hpg
        · subst heq
          refine ⟨hu, ?_⟩
          intro q hq
          rcases List.mem_append.mp hq with hqv | hqr
          · rcases hv with hvm | hvnil
            · exact (hg (u, v) hvm).2 q hqv
            · rw [hvnil] at hqv
              simp at hqv
          · obtain rfl : q = r := List.mem_singleton.mp hqr
            exact hl

theorem dirLookup_writeRecFile (d : OutputDir) (n x : String)
    (c : List FastaRecord) :
    dirLookup (writeRecFile d n c) x = if n = x then some c else dirLookup d x := by
  unfold dirLookup writeRecFile
  rw [alookup_updOrAppend]

/-- The directory produced by step 3: each file holds the records of the
last group (in insertion order) whose sanitized taxon filename equals that
file's name — later groups silently overwrite earlier ones on collision. -/
theorem dirLookup_writeGroups (groups : TaxonGroups) (name : String) :
    dirLookup (writeGroups groups) name =
      (groups.reverse.find? (fun p => taxonFilename p.1 == name)).map Prod.snd := by
  suffices h : ∀ (gs : TaxonGroups) (d : OutputDir),
      dirLookup (gs.foldl (fun d p => writeRecFile d (taxonFilename p.1) p.2) d) name =
        ((gs.reverse.find? (fun p => taxonFilename p.1 == name)).map Prod.snd).or
          (dirLookup d name) by
    rw [writeGroups, h]
    cases hf : (groups.reverse.find? (fun p => taxonFilename p.1 == name)).map Prod.snd
    · rfl
    · rfl
  intro gs
  induction gs with
  | nil => intro d; simp
  | cons g rest ih =>
    intro d
    rw [List.foldl_cons, ih, List.reverse_cons, List.find?_append,
      dirLookup_writeRecFile]
    cases hf : rest.reverse.find? (fun p => taxonFilename p.1 == name) with
    | some q => simp
    | none =>
      by_cases hn : taxonFilename g.1 = name
      · have hp : (fun p => taxonFilename p.1 == name) g = true := by simpa using hn
        simp [List.find?, hp, hn]
      · have hp : (fun p => taxonFilename p.1 == name) g = false := by simpa using hn
        simp [List.find?, hp, hn]

/-! ## Claim C2 -/

/-- C2 (amended): a record whose identifier is absent from the taxonomy
map — or present but mapped to the empty-string taxon label, which fails
the script's `if taxon:` truthiness test — lands in no taxon group, with
no error; a record whose identifier maps to a non-empty label is appended
to that label's group, and each group holds exactly the matching records
in input-file order (`List.filter` preserves order). -/
theorem c2_grouping (tax : TaxMap) (records : List FastaRecord) :
    (∀ t, t ≠ "" →
        groupEntry (groupRecords tax records) t =
          records.filter (fun r => dlookup tax r.id == some t)) ∧
    groupEntry (groupRecords tax records) "" = [] ∧
    (∀ r ∈ records, dlookup tax r.id = none →
        ∀ t, r ∉ groupEntry (groupRecords tax records) t) := by
  refine ⟨?_, ?_, ?_⟩
  · intro t ht
    rw [groupRecords, groupEntry_foldl tax records [] t ht]
    rfl
  · exact groupEntry_empty_foldl tax records [] rfl
  · intro r hr hnone t
    by_cases ht : t = ""
    · subst ht
      rw [groupRecords, groupEntry_empty_foldl tax records [] rfl]
      simp
    · rw [groupRecords, groupEntry_foldl tax records [] t ht]
      intro hmem
      have h0 : groupEntry [] t = [] := rfl
      rw [h0, List.nil_append] at hmem
      have hpred : (dlookup tax r.id == some t) = true := (List.mem_filter.mp hmem).2
      rw [hnone] at hpred
      simp at hpred

/-- C2 counterexample: the taxonomy line `X\t\ty` stores the entry
`X -> ""`; the record `X` is therefore present in the TaxonomyMap, yet the
script's truthiness test drops it from every group — contradicting the
claim that every record whose identifier is present is appended to its
taxon's group. -/
theorem c2_counterexample :
    loadTaxonomy ["Feature ID\tTaxon", "X\t\ty"] = some [("X", "")] ∧
    dlookup [("X", "")] "X" = some "" ∧
    groupRecords [("X", "")] [⟨"X", "ACGT"⟩] = [] ∧
    groupEntry (groupRecords [("X", "")] [⟨"X", "ACGT"⟩]) "" = [] :=
  ⟨rfl, rfl, rfl, rfl⟩

/-- C2 witness: with `X -> Bact` in the map, the group for `Bact` holds
exactly the matching records, in order. -/
theorem c2_witness :
    groupEntry (groupRecords [("X", "Bact")]
        [⟨"X", "AC"⟩, ⟨"Y", "GG"⟩, ⟨"X", "TT"⟩]) "Bact" =
      List.filter (fun r => dlookup [("X", "Bact")] r.id == some "Bact")
        [⟨"X", "AC"⟩, ⟨"Y", "GG"⟩, ⟨"X", "TT"⟩] :=
  (c2_grouping _ _).1 "Bact" (by decide)

/-! ## Claim C5 -/

theorem sanChar_eq (c : Char) :
    (if c.isAlphanum || c == '.' || c == '_' || c == '-' then c else '_') =
      (if c.isAlphanum = true ∨ c = '.' ∨ c = '_' ∨ c = '-' then c else '_') := by
  simp only [Bool.or_eq_true, beq_iff_eq, or_assoc]

/-- C5: the output filename for a taxon label replaces every character that
is not alphanumeric, `.`, `_` or `-` by `_` and appends `.fasta`; and each
name in the final directory holds the records of the last group whose
label sanitizes to it — so of two distinct labels with the same sanitized
filename, the later-processed group silently overwrites the earlier one. -/
theorem c5_filename_and_overwrite :
    (∀ t : String, taxonFilename t =
        String.mk (t.data.map fun c =>
          if c.isAlphanum = true ∨ c = '.' ∨ c = '_' ∨ c = '-' then c else '_')
          ++ ".fasta") ∧
    (∀ (groups : TaxonGroups) (name : String),
        dirLookup (writeGroups groups) name =
          (groups.reverse.find? (fun p => taxonFilename p.1 == name)).map Prod.snd) := by
  constructor
  · intro t
    have hmap : (t.data.map fun c =>
          if c.isAlphanum || c == '.' || c == '_' || c == '-' then c else '_')
        = t.data.map fun c =>
          if c.isAlphanum = true ∨ c = '.' ∨ c = '_' ∨ c = '-' then c else '_' :=
      List.map_congr_left fun c _ => sanChar_eq c
    rw [taxonFilename, sanitize_filename, hmap]
  · exact dirLookup_writeGroups

/-! ## Claim C6 -/

/-- C6: the whole taxonomy table is loaded before any FASTA record is
touched (the run factors through `loadTaxonomy`, which depends on the
taxonomy lines alone); the first taxonomy line is discarded whatever it is;
a stripped line splitting into fewer than two tab-separated fields leaves
the map unchanged (skipped, no error — `parseTaxLine` is total); any other
line stores only its first field as feature ID and second field as taxon
label, ignoring the rest. -/
theorem c6_taxonomy_loading :
    (∀ (h₁ h₂ : String) (rest : List String),
        loadTaxonomy (h₁ :: rest) = loadTaxonomy (h₂ :: rest)) ∧
    (∀ (m : TaxMap) (line : String),
        (pySplit1 '\t' (pyStrip line)).length < 2 → parseTaxLine m line = m) ∧
    (∀ (m : TaxMap) (line p0 p1 : String) (ps : List String),
        pySplit1 '\t' (pyStrip line) = p0 :: p1 :: ps →
          parseTaxLine m line = dinsert m p0 p1) ∧
    (∀ (taxLines : List String) (records : List FastaRecord),
        taxonSplitterMain taxLines records =
          (loadTaxonomy taxLines).map fun tax =>
            writeGroups (groupRecords tax records)) := by
  refine ⟨fun h₁ h₂ rest => rfl, ?_, ?_, fun t r => rfl⟩
  · intro m line hlen
    unfold parseTaxLine
    cases hsp : pySplit1 '\t' (pyStrip line) with
    | nil => rfl
    | cons p0 t =>
      cases t with
      | nil => rfl
      | cons p1 t2 =>
        rw [hsp] at hlen
        simp only [List.length_cons] at hlen
        exact absurd hlen (by omega)
  · intro m line p0 p1 ps hsp
    unfold parseTaxLine
    rw [hsp]

/-- C6 witness: a one-field line is skipped; a well-formed line stores its
first two fields. -/
theorem c6_witness :
    parseTaxLine [] "justonefield" = [] ∧
      parseTaxLine [] "BRK01_1\tBacteria\textra" = dinsert [] "BRK01_1" "Bacteria" :=
  ⟨c6_taxonomy_loading.2.1 [] "justonefield" (by decide),
   c6_taxonomy_loading.2.2.1 [] "BRK01_1\tBacteria\textra" "BRK01_1" "Bacteria"
      ["extra"] (by decide)⟩

/-! ## Claim C7 -/

/-- C7: every record in any file of the final output directory has a
taxonomy entry whose (non-empty) label sanitizes to that file's base name,
and no record lacking a taxonomy entry appears in any output file. -/
theorem c7_output_invariant (tax : TaxMap) (records : List FastaRecord)
    (name : String) (rs : List FastaRecord)
    (hdir : dirLookup (writeGroups (groupRecords tax records)) name = some rs) :
    ∀ r ∈ rs,
      (∃ t, dlookup tax r.id = some t ∧ t ≠ "" ∧ taxonFilename t = name) ∧
        dlookup tax r.id ≠ none := by
  rw [dirLookup_writeGroups] at hdir
  cases hf : (groupRecords tax records).reverse.find?
      (fun p => taxonFilename p.1 == name) with
  | none =>
    rw [hf] at hdir
    simp at hdir
  | some p =>
    rw [hf] at hdir
    have hrs : p.2 = rs := by simpa using hdir
    have hpmem : p ∈ groupRecords tax records :=
      List.mem_reverse.mp (List.mem_of_find?_eq_some hf)
    have hpname : taxonFilename p.1 = name := by
      simpa using List.find?_some hf
    have hinv := groupRecords_inv tax records []
      (fun q hq => absurd hq (List.not_mem_nil q)) p hpmem
    intro r hr
    have hrid : dlookup tax r.id = some p.1 := hinv.2 r (hrs ▸ hr)
    refine ⟨⟨p.1, hrid, hinv.1, hpname⟩, ?_⟩
    rw [hrid]
    simp

/-- C7 witness: the spec's Scenario 2 — the single record of taxon
`Bacteria;Firmicutes` is found in file `Bacteria_Firmicutes.fasta`, and the
theorem recovers its taxonomy entry. -/
theorem c7_witness :
    (∃ t, dlookup [("BRK01_1", "Bacteria;Firmicutes")]
          (FastaRecord.mk "BRK01_1" "ACGT").id = some t ∧ t ≠ "" ∧
        taxonFilename t = "Bacteria_Firmicutes.fasta") ∧
      dlookup [("BRK01_1", "Bacteria;Firmicutes")]
          (FastaRecord.mk "BRK01_1" "ACGT").id ≠ none :=
  c7_output_invariant [("BRK01_1", "Bacteria;Firmicutes")] [⟨"BRK01_1", "ACGT"⟩]
    "Bacteria_Firmicutes.fasta" [⟨"BRK01_1", "ACGT"⟩] (by decide)
    ⟨"BRK01_1", "ACGT"⟩ (by decide)

end RubyRed
